import Mathlib

/-! Shallow embedding of the tscache repository (src/tscache/tscache.py), a
disk backed block cache for remote time series data, and a verification of
the claims about it.

Modelling conventions:
- Timestamps are integers counted in whole seconds (Python datetime at
  second resolution); BASE_DATE is the epoch second count of 2010-01-01 and
  only differences of timestamps matter.
- The Python expression int(a / b) on integers truncates the real quotient
  toward zero, which is Int.div; for every timestamp representable by a
  Python datetime the float division is exact enough that the truncated
  float quotient equals the truncated rational quotient.
- The file system is a flat map from path strings to stored blocks, Python
  exceptions are values of an error type, and the caller supplied fetcher
  may fail with an error of type E.
- The while loop of _fetch_block is compiled with an explicit iteration
  budget of block_size, which is exact whenever limit is at least 1; for
  limit = 0 the Python loop diverges and no theorem below concerns that
  case.  Strings are treated as ASCII character lists (the Python regex
  class for digits also accepts other Unicode digits, which we do not
  model). -/

/-- Unit table _GRANULARITY_SECONDS_MAP from the source. -/
def granUnitSeconds (c : Char) : Nat :=
  if c = 's' then 1
  else if c = 'm' then 60
  else if c = 'h' then 60 * 60
  else if c = 'd' then 24 * 60 * 60
  else 0

/-- Membership in the regex character class [smhd]. -/
def granUnit (c : Char) : Bool :=
  c == 's' || c == 'm' || c == 'h' || c == 'd'

/-- Decimal value of a digit string, as computed by the Python int builtin
on the first regex group. -/
def digitsVal (ds : List Char) : Nat :=
  ds.foldl (fun a c => 10 * a + (c.toNat - 48)) 0

/-- The Python dollar anchor matches at the end of the string or just
before a single newline that ends it; granStrip removes that newline. -/
def granStrip (cs : List Char) : List Char :=
  if cs.getLast? = some '\n' then cs.dropLast else cs

/-- Matching of the anchored regex (digits)(unit) against a newline
stripped character list: the match succeeds iff the list is a nonempty
digit run followed by one unit character.  Returns the value of the digit
group and the unit character. -/
def granMatchCore (cs : List Char) : Option (Nat × Char) :=
  match cs.getLast? with
  | none => none
  | some u =>
    if granUnit u && !cs.dropLast.isEmpty && cs.dropLast.all Char.isDigit then
      some (digitsVal cs.dropLast, u)
    else none

/-- Matching of the anchored regex (digits)(unit) against a string. -/
def granMatch (s : String) : Option (Nat × Char) :=
  granMatchCore (granStrip s.data)

/-- Source function _convert_granularity_to_seconds: regex match then
int(r[1]) * _GRANULARITY_SECONDS_MAP[r[2]], or ValueError with the message
string of line 37 (the source never interpolates the %s). -/
def _convert_granularity_to_seconds (granularity : String) : Except String Nat :=
  match granMatch granularity with
  | some (n, u) => Except.ok (n * granUnitSeconds u)
  | none => Except.error ("%s is not a valid granularity string")

/-- Seconds of 2010-01-01 00:00:00 UTC since the Unix epoch; the Python
constant BASE_DATE.  Only differences of timestamps are ever used. -/
def BASE_DATE : Int := 1262304000

/-- Python exceptions that the modelled code can raise, next to errors E
raised by the caller supplied fetcher. -/
inductive PyErr (E : Type) where
  | valueError : String → PyErr E
  | zeroDivisionError : PyErr E
  | typeError : PyErr E
  | fetchErr : E → PyErr E
deriving DecidableEq

/-- Source function _calculate_index: int(total_seconds / seconds) where
total_seconds = int((timestamp - BASE_DATE).total_seconds()).  Truncating
float division of integers is Int.div; dividing by zero seconds raises
ZeroDivisionError in Python. -/
def _calculate_index {E : Type} (timestamp : Int) (granularity : String) :
    Except (PyErr E) Int :=
  match _convert_granularity_to_seconds granularity with
  | Except.error m => Except.error (PyErr.valueError m)
  | Except.ok seconds =>
    if seconds = 0 then Except.error PyErr.zeroDivisionError
    else Except.ok (Int.tdiv (timestamp - BASE_DATE) (seconds : Int))

/-- Source function _calculate_block_index: int(index / block_size). -/
def _calculate_block_index (index : Int) (block_size : Nat) : Int :=
  Int.tdiv index (block_size : Int)

/-- One decimal digit character, as produced by the %d format. -/
def digitChar (n : Nat) : Char :=
  if n = 0 then '0'
  else if n = 1 then '1'
  else if n = 2 then '2'
  else if n = 3 then '3'
  else if n = 4 then '4'
  else if n = 5 then '5'
  else if n = 6 then '6'
  else if n = 7 then '7'
  else if n = 8 then '8'
  else '9'

/-- Decimal digits of n, most significant first; the iteration budget fuel
is always called with n + 1, which exceeds the number of digits. -/
def natStrGo : Nat → Nat → List Char
  | 0, _ => []
  | fuel + 1, n =>
    if n < 10 then [digitChar n]
    else natStrGo fuel (n / 10) ++ [digitChar (n % 10)]

/-- Decimal digits of a natural number, most significant first. -/
def natStr (n : Nat) : List Char := natStrGo (n + 1) n

/-- The Python format expression "%d" % i: decimal digits with a leading
minus sign for negative integers. -/
def intStr : Int → List Char
  | Int.ofNat m => natStr m
  | Int.negSucc m => '-' :: natStr (m + 1)

/-- The Python test b.startswith(sep) used by posixpath.join. -/
def startsWithSlash (s : String) : Bool := s.data.head? == some '/'

/-- The Python test result.endswith(sep) used by posixpath.join. -/
def endsWithSlash (s : String) : Bool := s.data.getLast? == some '/'

/-- posixpath.join of one further component b onto a: an absolute b
discards a; otherwise a separator is inserted unless a is empty or already
ends with one. -/
def pathJoin2 (a b : String) : String :=
  if startsWithSlash b then b
  else if a = "" || endsWithSlash a then a ++ b
  else a ++ "/" ++ b

/-- Source function _get_block_path: os.path.join(basedir, symbol,
granularity, "%d" % block_index). -/
def _get_block_path (basedir symbol granularity : String)
    (block_index : Int) : String :=
  pathJoin2 (pathJoin2 (pathJoin2 basedir symbol) granularity)
    (String.mk (intStr block_index))

/-- The on-disk cache directory: a map from paths to decoded blocks.  A
some entry is a file holding the msgpack encoding of that record list (the
codec is a faithful round trip and is not modelled further). -/
abbrev Disk (α : Type) : Type := String → Option (List α)

/-- A cache directory with no block files. -/
def emptyDisk {α : Type} : Disk α := fun _ => none

/-- The type of the caller supplied fetcher: symbol, granularity, start
timestamp and page limit to a record page, or a fetcher error. -/
abbrev FetcherFunc (α E : Type) : Type :=
  String → String → Int → Nat → Except E (List α)

/-- Normalization of one Python slice bound for a list of length n. -/
def pyBound (n : Nat) (i : Int) : Nat :=
  if i < 0 then (i + (n : Int)).toNat else min i.toNat n

/-- The Python slice l[a:b] with integer bounds: negative bounds count from
the end, bounds are clamped to [0, n], and an empty list results when the
normalized lower bound is not below the upper one. -/
def pySlice {α : Type} (l : List α) (a b : Int) : List α :=
  let lo := pyBound l.length a
  let hi := pyBound l.length b
  (l.drop lo).take (hi - lo)

/-- Lines 124 to 129 of the source, the slicing tail of _fetch_block.
Line 126 rebinds start_index to 0 when it is None.  Line 127 tests the
rebound start_index, which is never None at that point, so end_index always
keeps the value passed by the caller; when that value is None, Python then
raises TypeError on the expression end_index - offset. -/
def blockSlice {α E : Type} (block_size : Nat) (block : List α)
    (start_index? end_index? : Option Int) : Except (PyErr E) (List α) :=
  let offset : Int := (block_size : Int) - (block.length : Int)
  let start_index : Int := start_index?.getD 0
  match end_index? with
  | none => Except.error PyErr.typeError
  | some end_index =>
    Except.ok (pySlice block (start_index - offset) (end_index - offset))

/-- The pagination while loop of _fetch_block (lines 112 to 120): while
i < block_size, fetch a page of min(block_size - i, limit) records starting
at start, then advance start by limit * seconds and i by limit.  Returns
the accumulated records (or the first fetcher error) together with the list
of (start, page_limit) arguments of the fetcher calls made.  fuel is always
instantiated with block_size, which bounds the iteration count whenever
limit is at least 1. -/
def fetchIter {α E : Type} (fetcher : FetcherFunc α E)
    (symbol granularity : String) (seconds : Nat) (limit block_size : Nat) :
    Nat → Int → Nat → Except E (List α) × List (Int × Nat)
  | 0, _, _ => (Except.ok [], [])
  | fuel + 1, start, i =>
    if i < block_size then
      let page_limit := min (block_size - i) limit
      match fetcher symbol granularity start page_limit with
      | Except.error e => (Except.error e, [(start, page_limit)])
      | Except.ok page =>
        match fetchIter fetcher symbol granularity seconds limit block_size
            fuel (start + (limit : Int) * (seconds : Int)) (i + limit) with
        | (Except.error e, calls) =>
          (Except.error e, (start, page_limit) :: calls)
        | (Except.ok rest, calls) =>
          (Except.ok (page ++ rest), (start, page_limit) :: calls)
    else (Except.ok [], [])

/-- Source function _fetch_block.  If the block file exists it is loaded,
otherwise the pagination loop runs from the block start time
BASE_DATE + block_size * block_index * seconds and the accumulated records
are persisted (even when the slicing below then fails).  The result is the
sliced block, the resulting disk, and the fetcher calls made. -/
def _fetch_block {α E : Type} (basedir symbol granularity : String)
    (block_index : Int) (limit block_size : Nat) (fetcher : FetcherFunc α E)
    (start_index? end_index? : Option Int) (disk : Disk α) :
    Except (PyErr E) (List α) × Disk α × List (Int × Nat) :=
  let path := _get_block_path basedir symbol granularity block_index
  match disk path with
  | some block => (blockSlice block_size block start_index? end_index?, disk, [])
  | none =>
    match _convert_granularity_to_seconds granularity with
    | Except.error m => (Except.error (PyErr.valueError m), disk, [])
    | Except.ok seconds =>
      let start : Int :=
        BASE_DATE + (block_size : Int) * block_index * (seconds : Int)
      match fetchIter fetcher symbol granularity seconds limit block_size
          block_size start 0 with
      | (Except.error e, calls) => (Except.error (PyErr.fetchErr e), disk, calls)
      | (Except.ok block, calls) =>
        let disk2 : Disk α := fun p => if p = path then some block else disk p
        (blockSlice block_size block start_index? end_index?, disk2, calls)

/-- The TimeSeriesCache constructor state: basedir, fetcher, limit and
block_size. -/
structure TimeSeriesCache (α E : Type) where
  basedir : String
  fetcher : FetcherFunc α E
  limit : Nat
  block_size : Nat

/-- The while loop of TimeSeriesCache.query (lines 160 to 173): iterate
block_index from start_block_index while block_index is at most
end_block_index, calling _fetch_block with the local slice bounds
start_index mod block_size on the first block and (end_index + 1) mod
block_size on the last block, None elsewhere, concatenating the results.
An exception aborts the loop at once.  fuel is instantiated with the exact
iteration count. -/
def queryIter {α E : Type} (c : TimeSeriesCache α E)
    (symbol granularity : String)
    (start_index end_index start_block_index end_block_index : Int) :
    Nat → Int → Disk α → Except (PyErr E) (List α) × Disk α × List (Int × Nat)
  | 0, _, disk => (Except.ok [], disk, [])
  | fuel + 1, block_index, disk =>
    if block_index ≤ end_block_index then
      match _fetch_block c.basedir symbol granularity block_index c.limit
          c.block_size c.fetcher
          (if block_index = start_block_index then
            some (Int.emod start_index (c.block_size : Int)) else none)
          (if block_index = end_block_index then
            some (Int.emod (end_index + 1) (c.block_size : Int)) else none)
          disk with
      | (Except.error e, disk2, calls) => (Except.error e, disk2, calls)
      | (Except.ok records, disk2, calls) =>
        match queryIter c symbol granularity start_index end_index
            start_block_index end_block_index fuel (block_index + 1) disk2 with
        | (Except.error e, disk3, calls2) =>
          (Except.error e, disk3, calls ++ calls2)
        | (Except.ok rest, disk3, calls2) =>
          (Except.ok (records ++ rest), disk3, calls ++ calls2)
    else (Except.ok [], disk, [])

/-- Source method TimeSeriesCache.query: compute the index range and the
covering block range, then run the block loop.  Returns the record list (or
the first exception), the resulting disk, and all fetcher calls made. -/
def TimeSeriesCache.query {α E : Type} (c : TimeSeriesCache α E)
    (symbol granularity : String) (start_time end_time : Int)
    (disk : Disk α) :
    Except (PyErr E) (List α) × Disk α × List (Int × Nat) :=
  match _calculate_index start_time granularity with
  | Except.error e => (Except.error e, disk, [])
  | Except.ok start_index =>
    match _calculate_index end_time granularity with
    | Except.error e => (Except.error e, disk, [])
    | Except.ok end_index =>
      let start_block_index := _calculate_block_index start_index c.block_size
      let end_block_index := _calculate_block_index end_index c.block_size
      queryIter c symbol granularity start_index end_index start_block_index
        end_block_index (end_block_index + 1 - start_block_index).toNat
        start_block_index disk

/-- A fetcher over a fully populated remote history: for granularity 1s the
record at global index n is the integer n, and every page request is filled
completely.  Used by concrete evaluations. -/
def histFetcher : FetcherFunc Int Unit :=
  fun _ _ start page_limit =>
    Except.ok ((List.range page_limit).map (fun j => start - BASE_DATE + (j : Int)))

/-- A fetcher whose every call fails, modelling a remote error. -/
def failFetcher : FetcherFunc Int Unit :=
  fun _ _ _ _ => Except.error ()

/-- Decidable equality on Except, used only to evaluate closed statements. -/
instance exceptDecEq {ε α : Type} [DecidableEq ε] [DecidableEq α] :
    DecidableEq (Except ε α)
  | Except.error e, Except.error f =>
    if h : e = f then Decidable.isTrue (by rw [h])
    else Decidable.isFalse (fun hh => h (Except.error.inj hh))
  | Except.error _, Except.ok _ => Decidable.isFalse (fun hh => Except.noConfusion hh)
  | Except.ok _, Except.error _ => Decidable.isFalse (fun hh => Except.noConfusion hh)
  | Except.ok x, Except.ok y =>
    if h : x = y then Decidable.isTrue (by rw [h])
    else Decidable.isFalse (fun hh => h (Except.ok.inj hh))

/-- Truncating division by a positive integer is monotone in the dividend. -/
theorem tdiv_le_tdiv_right {a b c : Int} (hc : 0 < c) (h : a ≤ b) :
    Int.tdiv a c ≤ Int.tdiv b c := by
  rcases le_or_lt 0 a with ha | ha
  · rw [Int.tdiv_eq_ediv ha hc.le, Int.tdiv_eq_ediv (le_trans ha h) hc.le]
    exact Int.ediv_le_ediv hc h
  · rcases le_or_lt 0 b with hb | hb
    · have h1 : (0 : Int) ≤ -a := by omega
      have h2 : (0 : Int) ≤ Int.tdiv (-a) c := Int.tdiv_nonneg h1 hc.le
      have h3 : Int.tdiv a c = -(Int.tdiv (-a) c) := by
        rw [← Int.neg_tdiv, Int.neg_neg]
      have h4 : (0 : Int) ≤ Int.tdiv b c := Int.tdiv_nonneg hb hc.le
      omega
    · have h1 : (0 : Int) ≤ -a := by omega
      have h2 : (0 : Int) ≤ -b := by omega
      have h3 : Int.tdiv a c = -(Int.tdiv (-a) c) := by
        rw [← Int.neg_tdiv, Int.neg_neg]
      have h4 : Int.tdiv b c = -(Int.tdiv (-b) c) := by
        rw [← Int.neg_tdiv, Int.neg_neg]
      have h5 : Int.tdiv (-b) c ≤ Int.tdiv (-a) c := by
        rw [Int.tdiv_eq_ediv h2 hc.le, Int.tdiv_eq_ediv h1 hc.le]
        exact Int.ediv_le_ediv hc (by omega)
      omega

/-- Claim C1 (code_bug evaluation).  A query over a fully populated remote
history with block_size = 4, limit = 4, granularity 1s, from BASE_DATE to
BASE_DATE + 3 covers the global indices 0 to 3, all inside the fully
populated block 0, so the claim requires the four records 0, 1, 2, 3.  The
code returns the empty list: the last-block slice bound
(end_index + 1) mod block_size wraps to 0 and block[0:0] is empty. -/
theorem C1_full_coverage_fails :
    (TimeSeriesCache.query ⟨"base", histFetcher, 4, 4⟩ ("S") ("1s")
      BASE_DATE (BASE_DATE + 3) emptyDisk).1 = Except.ok ([] : List Int) := rfl

/-- Claim C2 (code_bug evaluation).  With block_size = 2, limit = 1 and
nothing cached, the range BASE_DATE to BASE_DATE + 3 at 1s spans blocks 0
and 1, so the claim requires two block-fetch sequences of two calls each
and a successful return.  The code paginates and persists block 0 only
(two calls, with start advancing by limit * granularity seconds), then
raises TypeError because the None end_index of a non-terminal block
survives line 127, and block 1 is never fetched. -/
theorem C2_multi_block_fetch_fails :
    (TimeSeriesCache.query ⟨"base", histFetcher, 1, 2⟩ ("S") ("1s")
      BASE_DATE (BASE_DATE + 3) emptyDisk).1 = Except.error PyErr.typeError ∧
    (TimeSeriesCache.query ⟨"base", histFetcher, 1, 2⟩ ("S") ("1s")
      BASE_DATE (BASE_DATE + 3) emptyDisk).2.2 =
      [(BASE_DATE, 1), (BASE_DATE + 1, 1)] :=
  ⟨rfl, rfl⟩

/-- Claim C3 (code_bug evaluation).  Issuing the two-block query of C2
twice: neither call returns a record sequence; both raise TypeError.  The
second call is indeed served from disk and performs zero fetcher calls,
but it still crashes while slicing the cached block, so the two calls do
not return identical record sequences as the claim states. -/
theorem C3_idempotence_fails :
    (TimeSeriesCache.query ⟨"base", histFetcher, 1, 2⟩ ("S") ("1s")
      BASE_DATE (BASE_DATE + 3) emptyDisk).1 = Except.error PyErr.typeError ∧
    (TimeSeriesCache.query ⟨"base", histFetcher, 1, 2⟩ ("S") ("1s")
      BASE_DATE (BASE_DATE + 3)
      (TimeSeriesCache.query ⟨"base", histFetcher, 1, 2⟩ ("S") ("1s")
        BASE_DATE (BASE_DATE + 3) emptyDisk).2.1).1 =
      Except.error PyErr.typeError ∧
    (TimeSeriesCache.query ⟨"base", histFetcher, 1, 2⟩ ("S") ("1s")
      BASE_DATE (BASE_DATE + 3)
      (TimeSeriesCache.query ⟨"base", histFetcher, 1, 2⟩ ("S") ("1s")
        BASE_DATE (BASE_DATE + 3) emptyDisk).2.1).2.2 = [] :=
  ⟨rfl, rfl, rfl⟩

/-- Claim C5 (counterexample).  The string 0s does not have a positive
integer prefix, so the claim requires the parser to fail on it; the regex
group (digits) accepts 0 and the code returns 0 seconds instead of
raising. -/
theorem C5_zero_granularity_accepted :
    _convert_granularity_to_seconds ("0s") = Except.ok 0 := rfl

/-- Claim C6 (counterexample).  Thirty seconds before BASE_DATE at
granularity 1m the floor of the quotient is -1, but int() truncation
toward zero makes the code return index 0, so to_index is not the floor
for every timestamp. -/
theorem C6_pre_base_not_floor :
    _calculate_index (E := Unit) (BASE_DATE - 30) ("1m") ≠
      Except.ok (Int.fdiv ((BASE_DATE - 30) - BASE_DATE) ((60 : Nat) : Int)) := by
  decide

/-- Claim C7 (counterexample).  For the negative block index k = -1 with
block_size = 2 and offset i = 1 the claim requires
to_block_index(-1 * 2 + 1) = -1, but truncation toward zero gives 0. -/
theorem C7_negative_block_index_fails :
    _calculate_block_index ((-1) * 2 + 1) 2 ≠ (-1 : Int) := by decide

/-- Claim C9 (counterexample).  The distinct symbols a/ and a collide:
os.path.join does not insert a separator after a component that already
ends with one, so both triples map to the path base/a/15m/0. -/
theorem C9_path_collision :
    _get_block_path ("base") ("a/") ("15m") 0 =
      _get_block_path ("base") ("a") ("15m") 0 ∧
    ("a/" : String) ≠ ("a" : String) := by
  exact ⟨rfl, by decide⟩

/-- Claim C6 (amended).  For every timestamp at or after BASE_DATE and
every granularity the parser accepts with a nonzero number of seconds,
the computed index equals the floor of (timestamp - BASE_DATE) divided by
the granularity seconds; truncation and floor agree on nonnegative
dividends.  (Before BASE_DATE the code truncates toward zero, see the
counterexample.) -/
theorem C6_index_is_floor_after_base {E : Type} (t : Int) (g : String)
    (secs : Nat) (i : Int)
    (hg : _convert_granularity_to_seconds g = Except.ok secs)
    (hi : _calculate_index (E := E) t g = Except.ok i)
    (ht : BASE_DATE ≤ t) :
    i = Int.fdiv (t - BASE_DATE) ((secs : Nat) : Int) := by
  unfold _calculate_index at hi
  rw [hg] at hi
  dsimp only at hi
  by_cases h0 : secs = 0
  · rw [if_pos h0] at hi
    exact Except.noConfusion hi
  · rw [if_neg h0] at hi
    have h1 : (0 : Int) ≤ t - BASE_DATE := by omega
    have h2 : (0 : Int) ≤ ((secs : Nat) : Int) := Int.natCast_nonneg secs
    rw [← Except.ok.inj hi]
    exact (Int.fdiv_eq_tdiv h1 h2).symm

/-- Witness for C6_index_is_floor_after_base at t = BASE_DATE + 90 and
granularity 1m: the code index 1 is the floor of 90 / 60. -/
theorem C6_index_is_floor_after_base_witness :
    (1 : Int) = Int.fdiv ((BASE_DATE + 90) - BASE_DATE) (((60 : Nat) : Nat) : Int) :=
  C6_index_is_floor_after_base (E := Unit) (BASE_DATE + 90) ("1m") 60 1
    (by decide) (by decide) (by decide)

/-- Claim C7 (amended).  For every nonnegative block index k, every
block_size of at least 1 and every offset 0 ≤ i < block_size, the global
index k * block_size + i maps back to block k.  (For negative k the code
truncates toward zero and the identity fails, see the counterexample.) -/
theorem C7_block_boundary_nonneg (k : Int) (bs : Nat) (i : Int)
    (hk : 0 ≤ k) (hbs : 0 < bs) (hi0 : 0 ≤ i) (hibs : i < (bs : Int)) :
    _calculate_block_index (k * (bs : Int) + i) bs = k := by
  unfold _calculate_block_index
  have hbpos : (0 : Int) < (bs : Int) := by exact_mod_cast hbs
  have hnn : (0 : Int) ≤ k * (bs : Int) + i := by
    have := Int.mul_nonneg hk hbpos.le
    omega
  rw [Int.tdiv_eq_ediv hnn hbpos.le]
  rw [Int.add_comm]
  rw [Int.add_mul_ediv_right i k (by omega : (bs : Int) ≠ 0)]
  rw [Int.ediv_eq_zero_of_lt hi0 hibs]
  omega

/-- Witness for C7_block_boundary_nonneg at k = 2, block_size = 3, i = 1:
global index 7 lies in block 2. -/
theorem C7_block_boundary_nonneg_witness :
    _calculate_block_index (2 * ((3 : Nat) : Int) + 1) 3 = 2 :=
  C7_block_boundary_nonneg 2 3 1 (by decide) (by decide) (by decide) (by decide)

/-- Claim C8 (confirmed).  For a fixed granularity accepted by the parser,
the computed index is monotone in the timestamp: whenever both index
computations succeed and t1 < t2, the first index is at most the second.
This holds on both sides of BASE_DATE because truncating division by a
positive divisor is monotone. -/
theorem C8_index_monotone {E : Type} (g : String) (t1 t2 i1 i2 : Int)
    (h1 : _calculate_index (E := E) t1 g = Except.ok i1)
    (h2 : _calculate_index (E := E) t2 g = Except.ok i2)
    (hlt : t1 < t2) : i1 ≤ i2 := by
  unfold _calculate_index at h1 h2
  cases hg : _convert_granularity_to_seconds g with
  | error m =>
    rw [hg] at h1
    exact Except.noConfusion h1
  | ok secs =>
    rw [hg] at h1 h2
    dsimp only at h1 h2
    by_cases h0 : secs = 0
    · rw [if_pos h0] at h1
      exact Except.noConfusion h1
    · rw [if_neg h0] at h1 h2
      rw [← Except.ok.inj h1, ← Except.ok.inj h2]
      have hcpos : (0 : Int) < ((secs : Nat) : Int) := by
        exact_mod_cast Nat.pos_of_ne_zero h0
      exact tdiv_le_tdiv_right hcpos (by omega)

/-- Witness for C8_index_monotone with granularity 1m between BASE_DATE
and BASE_DATE + 61: index 0 is at most index 1. -/
theorem C8_index_monotone_witness :
    _calculate_index (E := Unit) BASE_DATE ("1m") = Except.ok 0 ∧ (0 : Int) ≤ 1 :=
  ⟨by decide,
    C8_index_monotone (E := Unit) ("1m") BASE_DATE (BASE_DATE + 61) 0 1
      (by decide) (by decide) (by decide)⟩

/-- Folding one more digit onto a digit string multiplies the value by ten. -/
theorem digitsVal_append_digit (l : List Char) (c : Char) :
    digitsVal (l ++ [c]) = 10 * digitsVal l + (c.toNat - 48) := by
  unfold digitsVal
  rw [List.foldl_append]
  rfl

/-- The character of a decimal digit has the expected code point. -/
theorem digitChar_toNat (n : Nat) (h : n < 10) : (digitChar n).toNat = 48 + n := by
  unfold digitChar
  interval_cases n <;> rfl

/-- Every character produced by digitChar is an ASCII digit. -/
theorem digitChar_range (n : Nat) :
    48 ≤ (digitChar n).toNat ∧ (digitChar n).toNat ≤ 57 := by
  unfold digitChar
  repeat' split
  all_goals decide

/-- With enough fuel, the digit rendering of n evaluates back to n. -/
theorem natStrGo_val : ∀ (fuel n : Nat), n < 10 ^ fuel →
    digitsVal (natStrGo fuel n) = n := by
  intro fuel
  induction fuel with
  | zero =>
    intro n h
    have hn : n = 0 := by simpa using h
    subst hn
    rfl
  | succ f ih =>
    intro n h
    rw [natStrGo]
    by_cases h10 : n < 10
    · rw [if_pos h10]
      have hd := digitChar_toNat n h10
      show digitsVal [digitChar n] = n
      unfold digitsVal
      simp [hd]
    · rw [if_neg h10]
      rw [digitsVal_append_digit]
      have hdiv : n / 10 < 10 ^ f := by
        rw [Nat.div_lt_iff_lt_mul (by norm_num : 0 < 10)]
        calc n < 10 ^ (f + 1) := h
          _ = 10 ^ f * 10 := by rw [Nat.pow_succ]
      rw [ih (n / 10) hdiv]
      have hmod := digitChar_toNat (n % 10) (Nat.mod_lt n (by norm_num))
      omega

/-- Round trip of the decimal rendering of a natural number. -/
theorem natStr_val (n : Nat) : digitsVal (natStr n) = n := by
  apply natStrGo_val
  calc n < 10 ^ n := Nat.lt_pow_self (by norm_num) n
    _ ≤ 10 ^ (n + 1) := Nat.pow_le_pow_right (by norm_num) (Nat.le_succ n)

/-- The decimal rendering of natural numbers is injective. -/
theorem natStr_inj {a b : Nat} (h : natStr a = natStr b) : a = b := by
  have hv := congrArg digitsVal h
  rwa [natStr_val, natStr_val] at hv

/-- Every character of a rendered natural number is an ASCII digit. -/
theorem natStrGo_digits : ∀ (fuel n : Nat) (c : Char), c ∈ natStrGo fuel n →
    48 ≤ c.toNat ∧ c.toNat ≤ 57 := by
  intro fuel
  induction fuel with
  | zero =>
    intro n c h
    simp [natStrGo] at h
  | succ f ih =>
    intro n c h
    rw [natStrGo] at h
    by_cases h10 : n < 10
    · rw [if_pos h10] at h
      rw [List.mem_singleton] at h
      subst h
      exact digitChar_range n
    · rw [if_neg h10] at h
      rcases List.mem_append.mp h with h1 | h1
      · exact ih (n / 10) c h1
      · rw [List.mem_singleton] at h1
        subst h1
        exact digitChar_range (n % 10)

/-- Every character of a rendered natural number is an ASCII digit. -/
theorem natStr_digits (n : Nat) (c : Char) (h : c ∈ natStr n) :
    48 ≤ c.toNat ∧ c.toNat ≤ 57 :=
  natStrGo_digits (n + 1) n c h

/-- The decimal rendering of a natural number is never empty. -/
theorem natStr_ne_nil (n : Nat) : natStr n ≠ [] := by
  unfold natStr natStrGo
  by_cases h10 : n < 10
  · rw [if_pos h10]
    simp
  · rw [if_neg h10]
    simp

/-- The rendering of the %d format is injective on integers. -/
theorem intStr_inj {i j : Int} (h : intStr i = intStr j) : i = j := by
  have h45 : ('-').toNat = 45 := rfl
  cases i with
  | ofNat m =>
    cases j with
    | ofNat k =>
      rw [show intStr (Int.ofNat m) = natStr m from rfl,
        show intStr (Int.ofNat k) = natStr k from rfl] at h
      rw [natStr_inj h]
    | negSucc k =>
      rw [show intStr (Int.ofNat m) = natStr m from rfl,
        show intStr (Int.negSucc k) = '-' :: natStr (k + 1) from rfl] at h
      have hm : '-' ∈ natStr m := h ▸ List.mem_cons_self '-' (natStr (k + 1))
      have := natStr_digits m '-' hm
      omega
  | negSucc m =>
    cases j with
    | ofNat k =>
      rw [show intStr (Int.negSucc m) = '-' :: natStr (m + 1) from rfl,
        show intStr (Int.ofNat k) = natStr k from rfl] at h
      have hm : '-' ∈ natStr k := h ▸ List.mem_cons_self '-' (natStr (m + 1))
      have := natStr_digits k '-' hm
      omega
    | negSucc k =>
      rw [show intStr (Int.negSucc m) = '-' :: natStr (m + 1) from rfl,
        show intStr (Int.negSucc k) = '-' :: natStr (k + 1) from rfl] at h
      have hmk : m + 1 = k + 1 := natStr_inj (List.cons_eq_cons.mp h).2
      have : m = k := by omega
      rw [this]

/-- No slash occurs in the %d rendering of an integer. -/
theorem intStr_no_slash (i : Int) : '/' ∉ intStr i := by
  have h47 : ('/').toNat = 47 := rfl
  cases i with
  | ofNat m =>
    intro h
    have := natStr_digits m '/' h
    omega
  | negSucc m =>
    intro h
    rw [show intStr (Int.negSucc m) = '-' :: natStr (m + 1) from rfl] at h
    rcases List.mem_cons.mp h with h1 | h1
    · exact absurd h1 (by decide)
    · have := natStr_digits (m + 1) '/' h1
      omega

/-- The %d rendering of an integer is never empty. -/
theorem intStr_ne_nil (i : Int) : intStr i ≠ [] := by
  cases i with
  | ofNat m => exact natStr_ne_nil m
  | negSucc m =>
    rw [show intStr (Int.negSucc m) = '-' :: natStr (m + 1) from rfl]
    simp

/-- A string whose characters avoid the slash does not start with one. -/
theorem startsWithSlash_eq_false (s : String) (h : '/' ∉ s.data) :
    startsWithSlash s = false := by
  unfold startsWithSlash
  cases hd : s.data with
  | nil => rfl
  | cons c t =>
    rw [hd] at h
    have hc : c ≠ '/' := fun hh => h (hh ▸ List.mem_cons_self c t)
    simp [hc]

/-- A string whose characters avoid the slash does not end with one. -/
theorem endsWithSlash_eq_false (s : String) (h : '/' ∉ s.data) :
    endsWithSlash s = false := by
  unfold endsWithSlash
  cases hd : s.data.getLast? with
  | none => rfl
  | some c =>
    have hc : c ∈ s.data := List.mem_of_getLast?_eq_some hd
    have : c ≠ '/' := fun hh => h (hh ▸ hc)
    simp [this]

/-- Splitting at the first slash is unique when neither left part contains
a slash. -/
theorem split_slash : ∀ (l1 : List Char) (r1 l2 r2 : List Char),
    '/' ∉ l1 → '/' ∉ l2 → l1 ++ '/' :: r1 = l2 ++ '/' :: r2 →
    l1 = l2 ∧ r1 = r2 := by
  intro l1
  induction l1 with
  | nil =>
    intro r1 l2 r2 h1 h2 h
    cases l2 with
    | nil =>
      simp only [List.nil_append] at h
      exact ⟨rfl, (List.cons_eq_cons.mp h).2⟩
    | cons b t2 =>
      simp only [List.nil_append, List.cons_append] at h
      have hb : b = '/' := ((List.cons_eq_cons.mp h).1).symm
      exact absurd (hb ▸ List.mem_cons_self b t2) h2
  | cons a t ih =>
    intro r1 l2 r2 h1 h2 h
    cases l2 with
    | nil =>
      simp only [List.cons_append, List.nil_append] at h
      have ha : a = '/' := (List.cons_eq_cons.mp h).1
      exact absurd (ha ▸ List.mem_cons_self a t) h1
    | cons b t2 =>
      simp only [List.cons_append] at h
      obtain ⟨hab, htl⟩ := List.cons_eq_cons.mp h
      have h1t : '/' ∉ t := fun hh => h1 (List.mem_cons_of_mem a hh)
      have h2t : '/' ∉ t2 := fun hh => h2 (List.mem_cons_of_mem b hh)
      obtain ⟨hteq, hreq⟩ := ih r1 t2 r2 h1t h2t htl
      exact ⟨by rw [hab, hteq], hreq⟩

/-- Joining a slash-free nonempty component: the result is the base data,
a separator that depends only on the base, then the component data. -/
theorem pathJoin2_clean_data (basedir s : String)
    (_hs : s.data ≠ []) (hs2 : '/' ∉ s.data) :
    (pathJoin2 basedir s).data =
      (basedir.data ++ (if (basedir = "" || endsWithSlash basedir) then
        ([] : List Char) else ['/'])) ++ s.data := by
  unfold pathJoin2
  rw [startsWithSlash_eq_false s hs2]
  by_cases hb : (basedir = "" || endsWithSlash basedir) = true
  · rw [if_neg (by simp), if_pos hb, if_pos hb]
    simp
  · rw [if_neg (by simp), if_neg hb, if_neg hb]
    simp

/-- Joining a non-absolute component onto a nonempty base that does not
end with a slash inserts a separator. -/
theorem pathJoin2_sep (P b : String) (hb : startsWithSlash b = false)
    (hP : ¬(P = "" || endsWithSlash P) = true) :
    pathJoin2 P b = P ++ "/" ++ b := by
  unfold pathJoin2
  rw [hb]
  rw [if_neg (by simp)]
  rw [if_neg hP]

/-- The data of the block path of slash-free nonempty symbol and
granularity components: a prefix depending only on basedir, then symbol,
slash, granularity, slash, and the decimal block index. -/
theorem getBlockPath_clean_data (basedir s g : String) (i : Int)
    (hs : s.data ≠ []) (hs2 : '/' ∉ s.data)
    (hg : g.data ≠ []) (hg2 : '/' ∉ g.data) :
    (_get_block_path basedir s g i).data =
      (basedir.data ++ (if (basedir = "" || endsWithSlash basedir) then
        ([] : List Char) else ['/'])) ++
        (s.data ++ '/' :: (g.data ++ '/' :: intStr i)) := by
  unfold _get_block_path
  have hP1 : (pathJoin2 basedir s).data =
      (basedir.data ++ (if (basedir = "" || endsWithSlash basedir) then
        ([] : List Char) else ['/'])) ++ s.data :=
    pathJoin2_clean_data basedir s hs hs2
  have hP1ne : (pathJoin2 basedir s).data ≠ [] := by
    rw [hP1]
    simp [hs]
  have hP1last : (pathJoin2 basedir s).data.getLast? = s.data.getLast? := by
    rw [hP1, List.getLast?_append]
    cases hl : s.data.getLast? with
    | none => exact absurd (List.getLast?_eq_none_iff.mp hl) hs
    | some c => rfl
  have hP1slash : endsWithSlash (pathJoin2 basedir s) = false := by
    unfold endsWithSlash
    rw [hP1last]
    cases hl : s.data.getLast? with
    | none => rfl
    | some c =>
      have hc : c ∈ s.data := List.mem_of_getLast?_eq_some hl
      have : c ≠ '/' := fun hh => hs2 (hh ▸ hc)
      simp [this]
  have hP2 : pathJoin2 (pathJoin2 basedir s) g = pathJoin2 basedir s ++ "/" ++ g := by
    apply pathJoin2_sep
    · exact startsWithSlash_eq_false g hg2
    · rw [hP1slash]
      simp only [Bool.or_false]
      intro hh
      exact hP1ne (by rw [of_decide_eq_true hh])
  rw [hP2]
  have hP2ne : (pathJoin2 basedir s ++ "/" ++ g).data ≠ [] := by
    simp [hg]
  have hP2last : (pathJoin2 basedir s ++ "/" ++ g).data.getLast? = g.data.getLast? := by
    rw [String.data_append, List.getLast?_append]
    cases hl : g.data.getLast? with
    | none => exact absurd (List.getLast?_eq_none_iff.mp hl) hg
    | some c => rfl
  have hP2slash : endsWithSlash (pathJoin2 basedir s ++ "/" ++ g) = false := by
    unfold endsWithSlash
    rw [hP2last]
    cases hl : g.data.getLast? with
    | none => rfl
    | some c =>
      have hc : c ∈ g.data := List.mem_of_getLast?_eq_some hl
      have : c ≠ '/' := fun hh => hg2 (hh ▸ hc)
      simp [this]
  have hP3 : pathJoin2 (pathJoin2 basedir s ++ "/" ++ g) (String.mk (intStr i)) =
      pathJoin2 basedir s ++ "/" ++ g ++ "/" ++ String.mk (intStr i) := by
    apply pathJoin2_sep
    · exact startsWithSlash_eq_false (String.mk (intStr i)) (intStr_no_slash i)
    · rw [hP2slash]
      simp only [Bool.or_false]
      intro hh
      exact hP2ne (by rw [of_decide_eq_true hh])
  rw [hP3]
  simp only [String.data_append, hP1]
  simp [List.append_assoc]

/-- Claim C9 (amended).  The block path function is deterministic (it is a
pure function of its arguments, and the reverse direction of this
equivalence restates that), and it is collision free on triples whose
symbol and granularity are nonempty and contain no slash: two such triples
give the same path exactly when symbol, granularity and block index all
agree.  (Without the slash restriction distinct triples can collide, see
the counterexample with symbols a/ and a.) -/
theorem C9_path_deterministic_injective (basedir s1 g1 : String) (i1 : Int)
    (s2 g2 : String) (i2 : Int)
    (hs1 : s1 ≠ "") (hs1b : '/' ∉ s1.data)
    (hg1 : g1 ≠ "") (hg1b : '/' ∉ g1.data)
    (hs2 : s2 ≠ "") (hs2b : '/' ∉ s2.data)
    (hg2 : g2 ≠ "") (hg2b : '/' ∉ g2.data) :
    _get_block_path basedir s1 g1 i1 = _get_block_path basedir s2 g2 i2 ↔
      (s1 = s2 ∧ g1 = g2 ∧ i1 = i2) := by
  constructor
  · intro h
    have hs1d : s1.data ≠ [] := fun hh => hs1 (String.ext hh)
    have hs2d : s2.data ≠ [] := fun hh => hs2 (String.ext hh)
    have hg1d : g1.data ≠ [] := fun hh => hg1 (String.ext hh)
    have hg2d : g2.data ≠ [] := fun hh => hg2 (String.ext hh)
    have hd := congrArg String.data h
    rw [getBlockPath_clean_data basedir s1 g1 i1 hs1d hs1b hg1d hg1b,
      getBlockPath_clean_data basedir s2 g2 i2 hs2d hs2b hg2d hg2b] at hd
    have hd2 := List.append_cancel_left hd
    obtain ⟨hseq, hrest⟩ := split_slash s1.data _ s2.data _ hs1b hs2b hd2
    obtain ⟨hgeq, hieq⟩ := split_slash g1.data _ g2.data _ hg1b hg2b hrest
    exact ⟨String.ext hseq, String.ext hgeq, intStr_inj hieq⟩
  · rintro ⟨rfl, rfl, rfl⟩
    rfl

/-- Witness for C9_path_deterministic_injective on the triple (BTC, 15m, 7)
against itself. -/
theorem C9_path_deterministic_injective_witness :
    _get_block_path ("base") ("BTC") ("15m") 7 =
        _get_block_path ("base") ("BTC") ("15m") 7 ↔
      (("BTC" : String) = "BTC" ∧ ("15m" : String) = "15m" ∧ (7 : Int) = 7) :=
  C9_path_deterministic_injective ("base") ("BTC") ("15m") 7 ("BTC") ("15m") 7
    (by decide) (by decide) (by decide) (by decide)
    (by decide) (by decide) (by decide) (by decide)

/-- Distinct block indices of the same cache triple give distinct paths. -/
theorem getBlockPath_inj_index (basedir s g : String) {i1 i2 : Int}
    (h : _get_block_path basedir s g i1 = _get_block_path basedir s g i2) :
    i1 = i2 := by
  apply intStr_inj
  unfold _get_block_path at h
  set P := pathJoin2 (pathJoin2 basedir s) g with hPdef
  have h1 : startsWithSlash (String.mk (intStr i1)) = false :=
    startsWithSlash_eq_false _ (intStr_no_slash i1)
  have h2 : startsWithSlash (String.mk (intStr i2)) = false :=
    startsWithSlash_eq_false _ (intStr_no_slash i2)
  unfold pathJoin2 at h
  rw [h1, h2] at h
  simp only [Bool.false_eq_true, if_false] at h
  by_cases hP : (P = "" || endsWithSlash P) = true
  · rw [if_pos hP, if_pos hP] at h
    have hd := congrArg String.data h
    simp only [String.data_append] at hd
    exact List.append_cancel_left hd
  · rw [if_neg hP, if_neg hP] at h
    have hd := congrArg String.data h
    simp only [String.data_append, List.append_assoc] at hd
    have hd2 := List.append_cancel_left hd
    exact List.append_cancel_left hd2

/-- The slicing tail of _fetch_block never raises a fetcher error. -/
theorem blockSlice_ne_fetchErr {α E : Type} (bs : Nat) (block : List α)
    (si ei : Option Int) (e : E) :
    blockSlice (E := E) bs block si ei ≠ Except.error (PyErr.fetchErr e) := by
  unfold blockSlice
  cases ei with
  | none => simp
  | some b => simp

/-- The index computation never raises a fetcher error. -/
theorem calculate_index_no_fetchErr {E : Type} (t : Int) (g : String) (e : E) :
    _calculate_index (E := E) t g ≠ Except.error (PyErr.fetchErr e) := by
  unfold _calculate_index
  cases hconv : _convert_granularity_to_seconds g with
  | error m => simp
  | ok secs =>
    dsimp only
    by_cases h0 : secs = 0
    · rw [if_pos h0]
      simp
    · rw [if_neg h0]
      simp

/-- _fetch_block changes the disk at most at the path of its own block. -/
theorem fetch_block_frame {α E : Type} (basedir symbol g : String) (bi : Int)
    (limit bs : Nat) (fetcher : FetcherFunc α E) (si ei : Option Int)
    (disk : Disk α) (p : String)
    (hp : p ≠ _get_block_path basedir symbol g bi) :
    (_fetch_block basedir symbol g bi limit bs fetcher si ei disk).2.1 p =
      disk p := by
  simp only [_fetch_block]
  cases hd : disk (_get_block_path basedir symbol g bi) with
  | some block => rfl
  | none =>
    dsimp only
    cases hconv : _convert_granularity_to_seconds g with
    | error m => rfl
    | ok secs =>
      dsimp only
      rcases hloop : fetchIter fetcher symbol g secs limit bs bs
          (BASE_DATE + (bs : Int) * bi * (secs : Int)) 0 with ⟨r, calls⟩
      cases r with
      | error e => rfl
      | ok block =>
        dsimp only
        rw [if_neg hp]

/-- A successful _fetch_block leaves its own block present on the
resulting disk: it was either already cached or has just been persisted. -/
theorem fetch_block_ok_present {α E : Type} (basedir symbol g : String)
    (bi : Int) (limit bs : Nat) (fetcher : FetcherFunc α E)
    (si ei : Option Int) (disk : Disk α) (records : List α)
    (disk2 : Disk α) (calls : List (Int × Nat))
    (h : _fetch_block basedir symbol g bi limit bs fetcher si ei disk =
      (Except.ok records, disk2, calls)) :
    disk2 (_get_block_path basedir symbol g bi) ≠ none := by
  have h1 := congrArg (fun t => t.1) h
  have h2 := congrArg (fun t => t.2.1) h
  dsimp only at h1 h2
  rw [← h2]
  simp only [_fetch_block] at h1 ⊢
  cases hd : disk (_get_block_path basedir symbol g bi) with
  | some block =>
    dsimp only
    rw [hd]
    simp
  | none =>
    rw [hd] at h1
    dsimp only at h1 ⊢
    cases hconv : _convert_granularity_to_seconds g with
    | error m =>
      rw [hconv] at h1
      dsimp only at h1
      exact Except.noConfusion h1
    | ok secs =>
      rw [hconv] at h1
      dsimp only at h1 ⊢
      rcases hloop : fetchIter fetcher symbol g secs limit bs bs
          (BASE_DATE + (bs : Int) * bi * (secs : Int)) 0 with ⟨r, calls0⟩
      rw [hloop] at h1
      cases r with
      | error e2 =>
        dsimp only at h1
        exact Except.noConfusion h1
      | ok block =>
        dsimp only
        rw [if_pos rfl]
        simp

/-- If _fetch_block ends in a fetcher error then the block was not on
disk, its pagination loop is the one that raised exactly that error before
anything was persisted, and the disk is returned entirely unchanged. -/
theorem fetch_block_fetchErr {α E : Type} (basedir symbol g : String)
    (bi : Int) (limit bs : Nat) (fetcher : FetcherFunc α E)
    (si ei : Option Int) (disk : Disk α) (e : E)
    (h : (_fetch_block basedir symbol g bi limit bs fetcher si ei disk).1 =
      Except.error (PyErr.fetchErr e)) :
    disk (_get_block_path basedir symbol g bi) = none ∧
    (_fetch_block basedir symbol g bi limit bs fetcher si ei disk).2.1 =
      disk ∧
    ∃ (secs : Nat) (calls : List (Int × Nat)),
      _convert_granularity_to_seconds g = Except.ok secs ∧
      fetchIter fetcher symbol g secs limit bs bs
        (BASE_DATE + (bs : Int) * bi * (secs : Int)) 0 =
        (Except.error e, calls) := by
  simp only [_fetch_block] at h ⊢
  cases hd : disk (_get_block_path basedir symbol g bi) with
  | some block =>
    rw [hd] at h
    dsimp only at h
    exact absurd h (blockSlice_ne_fetchErr bs block si ei e)
  | none =>
    rw [hd] at h
    dsimp only at h ⊢
    cases hconv : _convert_granularity_to_seconds g with
    | error m =>
      rw [hconv] at h
      dsimp only at h
      simp at h
    | ok secs =>
      rw [hconv] at h
      dsimp only at h ⊢
      rcases hloop : fetchIter fetcher symbol g secs limit bs bs
          (BASE_DATE + (bs : Int) * bi * (secs : Int)) 0 with ⟨r, calls⟩
      cases r with
      | error e2 =>
        rw [hloop] at h
        dsimp only at h
        have he2 : e2 = e := PyErr.fetchErr.inj (Except.error.inj h)
        subst he2
        refine ⟨rfl, rfl, secs, calls, rfl, ?_⟩
        rw [hloop]
      | ok block =>
        rw [hloop] at h
        exact absurd h (blockSlice_ne_fetchErr bs block si ei e)

/-- If the block loop ends in a fetcher error, there is a block bi in the
remaining range that identifies the failure precisely: bi was not on disk
when the loop started, the pagination loop of bi is the one that raised
exactly the propagated error, every block strictly before bi that the loop
visited is present on the final disk (those fetches completed), and the
final disk agrees with the starting disk at every other path, in
particular at the path of bi itself. -/
theorem queryIter_fetchErr {α E : Type} (c : TimeSeriesCache α E)
    (symbol g : String) (si ei sbi ebi : Int) (e : E) :
    ∀ (fuel : Nat) (b : Int) (disk : Disk α),
      (queryIter c symbol g si ei sbi ebi fuel b disk).1 =
        Except.error (PyErr.fetchErr e) →
      ∃ bi : Int, b ≤ bi ∧ bi ≤ ebi ∧
        disk (_get_block_path c.basedir symbol g bi) = none ∧
        (∃ (secs : Nat) (calls : List (Int × Nat)),
          _convert_granularity_to_seconds g = Except.ok secs ∧
          fetchIter c.fetcher symbol g secs c.limit c.block_size c.block_size
            (BASE_DATE + (c.block_size : Int) * bi * (secs : Int)) 0 =
            (Except.error e, calls)) ∧
        (∀ b2 : Int, b ≤ b2 → b2 < bi →
          (queryIter c symbol g si ei sbi ebi fuel b disk).2.1
            (_get_block_path c.basedir symbol g b2) ≠ none) ∧
        (∀ p : String,
          (∀ b2 : Int, b ≤ b2 → b2 < bi →
            p ≠ _get_block_path c.basedir symbol g b2) →
          (queryIter c symbol g si ei sbi ebi fuel b disk).2.1 p = disk p) := by
  intro fuel
  induction fuel with
  | zero =>
    intro b disk h
    simp [queryIter] at h
  | succ n ih =>
    intro b disk h
    rw [queryIter] at h ⊢
    by_cases hb : b ≤ ebi
    · rw [if_pos hb] at h ⊢
      rcases hfb : _fetch_block c.basedir symbol g b c.limit c.block_size
          c.fetcher
          (if b = sbi then some (Int.emod si (c.block_size : Int)) else none)
          (if b = ebi then some (Int.emod (ei + 1) (c.block_size : Int)) else none)
          disk with ⟨r, disk2, calls⟩
      rw [hfb] at h
      cases r with
      | error pe =>
        dsimp only at h ⊢
        have hpe : pe = PyErr.fetchErr e := Except.error.inj h
        subst hpe
        obtain ⟨hnone, hdisk, secs, calls0, hconv, hloopErr⟩ :=
          fetch_block_fetchErr c.basedir symbol g b c.limit c.block_size
            c.fetcher
            (if b = sbi then some (Int.emod si (c.block_size : Int)) else none)
            (if b = ebi then some (Int.emod (ei + 1) (c.block_size : Int)) else none)
            disk e (by rw [hfb])
        rw [hfb] at hdisk
        dsimp only at hdisk
        refine ⟨b, le_refl b, hb, hnone, ⟨secs, calls0, hconv, hloopErr⟩, ?_, ?_⟩
        · intro b2 h1 h2
          exact absurd (lt_of_le_of_lt h1 h2) (lt_irrefl b)
        · intro p _
          rw [hdisk]
      | ok records =>
        dsimp only at h ⊢
        rcases hrec : queryIter c symbol g si ei sbi ebi n (b + 1) disk2
          with ⟨r2, disk3, calls2⟩
        rw [hrec] at h
        cases r2 with
        | error pe2 =>
          dsimp only at h ⊢
          have hpe2 : pe2 = PyErr.fetchErr e := Except.error.inj h
          subst hpe2
          obtain ⟨bi, hb1, hb2, hdnone, hloopEx, hcompl, hframe⟩ :=
            ih (b + 1) disk2 (by rw [hrec])
          rw [hrec] at hcompl hframe
          dsimp only at hcompl hframe
          have hframe_fb : ∀ p : String,
              p ≠ _get_block_path c.basedir symbol g b → disk2 p = disk p := by
            intro p hp
            have hfr := fetch_block_frame c.basedir symbol g b c.limit
              c.block_size c.fetcher
              (if b = sbi then some (Int.emod si (c.block_size : Int)) else none)
              (if b = ebi then some (Int.emod (ei + 1) (c.block_size : Int)) else none)
              disk p hp
            rw [hfb] at hfr
            exact hfr
          have hpresent : disk2 (_get_block_path c.basedir symbol g b) ≠ none :=
            fetch_block_ok_present c.basedir symbol g b c.limit c.block_size
              c.fetcher
              (if b = sbi then some (Int.emod si (c.block_size : Int)) else none)
              (if b = ebi then some (Int.emod (ei + 1) (c.block_size : Int)) else none)
              disk records disk2 calls hfb
          refine ⟨bi, by omega, hb2, ?_, hloopEx, ?_, ?_⟩
          · have hne2 : _get_block_path c.basedir symbol g bi ≠
                _get_block_path c.basedir symbol g b := by
              intro hh
              have := getBlockPath_inj_index c.basedir symbol g hh
              omega
            rw [← hframe_fb _ hne2]
            exact hdnone
          · intro b2 h1 h2
            by_cases heq : b2 = b
            · subst heq
              have hkeep : disk3 (_get_block_path c.basedir symbol g b2) =
                  disk2 (_get_block_path c.basedir symbol g b2) := by
                apply hframe
                intro b3 h3 h4 hh
                have := getBlockPath_inj_index c.basedir symbol g hh
                omega
              rw [hkeep]
              exact hpresent
            · exact hcompl b2 (by omega) h2
          · intro p hp
            have hstep : disk3 p = disk2 p := by
              apply hframe
              intro b3 h3 h4
              exact hp b3 (by omega) h4
            have hbase : disk2 p = disk p :=
              hframe_fb p (hp b (le_refl b) (by omega))
            rw [hstep, hbase]
        | ok rest =>
          dsimp only at h
          exact Except.noConfusion h
    · rw [if_neg hb] at h
      exact Except.noConfusion h

/-- Claim C4 (confirmed).  If a query run ends in a fetcher error, the
error propagated to the caller with no partial result (the result carries
no records), and the failing block is identified precisely: there is a
touched block bi whose pagination loop raised exactly the propagated
error, bi had no file before the call, and the final disk agrees with the
starting disk at every path other than those of the earlier touched blocks
that completed (which are all present afterwards) - in particular no file
was written for bi itself, whose on-disk state is exactly as before the
call. -/
theorem C4_fetch_error_leaves_no_partial_block {α E : Type}
    (c : TimeSeriesCache α E) (symbol g : String) (t1 t2 : Int)
    (disk : Disk α) (e : E)
    (h : (TimeSeriesCache.query c symbol g t1 t2 disk).1 =
      Except.error (PyErr.fetchErr e)) :
    ∃ bi i1 i2 : Int,
      _calculate_index (E := E) t1 g = Except.ok i1 ∧
      _calculate_index (E := E) t2 g = Except.ok i2 ∧
      _calculate_block_index i1 c.block_size ≤ bi ∧
      bi ≤ _calculate_block_index i2 c.block_size ∧
      disk (_get_block_path c.basedir symbol g bi) = none ∧
      (∃ (secs : Nat) (calls : List (Int × Nat)),
        _convert_granularity_to_seconds g = Except.ok secs ∧
        fetchIter c.fetcher symbol g secs c.limit c.block_size c.block_size
          (BASE_DATE + (c.block_size : Int) * bi * (secs : Int)) 0 =
          (Except.error e, calls)) ∧
      (TimeSeriesCache.query c symbol g t1 t2 disk).2.1
        (_get_block_path c.basedir symbol g bi) = none ∧
      (∀ b2 : Int, _calculate_block_index i1 c.block_size ≤ b2 → b2 < bi →
        (TimeSeriesCache.query c symbol g t1 t2 disk).2.1
          (_get_block_path c.basedir symbol g b2) ≠ none) ∧
      (∀ p : String,
        (∀ b2 : Int, _calculate_block_index i1 c.block_size ≤ b2 → b2 < bi →
          p ≠ _get_block_path c.basedir symbol g b2) →
        (TimeSeriesCache.query c symbol g t1 t2 disk).2.1 p = disk p) := by
  unfold TimeSeriesCache.query at h ⊢
  cases h1 : _calculate_index (E := E) t1 g with
  | error e1 =>
    rw [h1] at h
    dsimp only at h
    have : e1 = PyErr.fetchErr e := Except.error.inj h
    exact absurd (this ▸ h1) (calculate_index_no_fetchErr t1 g e)
  | ok i1 =>
    rw [h1] at h
    dsimp only at h
    cases h2 : _calculate_index (E := E) t2 g with
    | error e2 =>
      rw [h2] at h
      dsimp only at h
      have : e2 = PyErr.fetchErr e := Except.error.inj h
      exact absurd (this ▸ h2) (calculate_index_no_fetchErr t2 g e)
    | ok i2 =>
      rw [h2] at h
      dsimp only at h
      obtain ⟨bi, hge, hle, hnone, hloopEx, hcompl, hframe⟩ :=
        queryIter_fetchErr c symbol g i1 i2
          (_calculate_block_index i1 c.block_size)
          (_calculate_block_index i2 c.block_size) e
          (_calculate_block_index i2 c.block_size + 1 -
            _calculate_block_index i1 c.block_size).toNat
          (_calculate_block_index i1 c.block_size) disk h
      have hkey : ∀ b2 : Int,
          _calculate_block_index i1 c.block_size ≤ b2 → b2 < bi →
          _get_block_path c.basedir symbol g bi ≠
            _get_block_path c.basedir symbol g b2 := by
        intro b2 h3 h4 hh
        have := getBlockPath_inj_index c.basedir symbol g hh
        omega
      have hfinal := hframe (_get_block_path c.basedir symbol g bi) hkey
      rw [hnone] at hfinal
      exact ⟨bi, i1, i2, rfl, rfl, hge, hle, hnone, hloopEx, hfinal, hcompl,
        hframe⟩

/-- Witness for C4_fetch_error_leaves_no_partial_block: a single-block
query against a fetcher that always fails, on an empty cache. -/
theorem C4_fetch_error_leaves_no_partial_block_witness :
    ∃ bi i1 i2 : Int,
      _calculate_index (E := Unit) BASE_DATE ("1s") = Except.ok i1 ∧
      _calculate_index (E := Unit) BASE_DATE ("1s") = Except.ok i2 ∧
      _calculate_block_index i1 1 ≤ bi ∧
      bi ≤ _calculate_block_index i2 1 ∧
      emptyDisk (α := Int) (_get_block_path ("b") ("S") ("1s") bi) = none ∧
      (∃ (secs : Nat) (calls : List (Int × Nat)),
        _convert_granularity_to_seconds ("1s") = Except.ok secs ∧
        fetchIter failFetcher ("S") ("1s") secs 1 1 1
          (BASE_DATE + ((1 : Nat) : Int) * bi * (secs : Int)) 0 =
          (Except.error (), calls)) ∧
      (TimeSeriesCache.query ⟨"b", failFetcher, 1, 1⟩ ("S") ("1s")
        BASE_DATE BASE_DATE (emptyDisk (α := Int))).2.1
        (_get_block_path ("b") ("S") ("1s") bi) = none ∧
      (∀ b2 : Int, _calculate_block_index i1 1 ≤ b2 → b2 < bi →
        (TimeSeriesCache.query ⟨"b", failFetcher, 1, 1⟩ ("S") ("1s")
          BASE_DATE BASE_DATE (emptyDisk (α := Int))).2.1
          (_get_block_path ("b") ("S") ("1s") b2) ≠ none) ∧
      (∀ p : String,
        (∀ b2 : Int, _calculate_block_index i1 1 ≤ b2 → b2 < bi →
          p ≠ _get_block_path ("b") ("S") ("1s") b2) →
        (TimeSeriesCache.query ⟨"b", failFetcher, 1, 1⟩ ("S") ("1s")
          BASE_DATE BASE_DATE (emptyDisk (α := Int))).2.1 p =
          emptyDisk (α := Int) p) :=
  C4_fetch_error_leaves_no_partial_block ⟨"b", failFetcher, 1, 1⟩ ("S") ("1s")
    BASE_DATE BASE_DATE emptyDisk () (by rfl)

/-- Claim C10 (confirmed).  When the granularity is valid and the block
index of the end index is strictly below the block index of the start
index, the while loop runs zero times: the query returns the empty list,
makes no fetcher calls, and returns the disk unchanged (no block file is
read or written since _fetch_block is never invoked). -/
theorem C10_reversed_range_empty {α E : Type} (c : TimeSeriesCache α E)
    (symbol g : String) (t1 t2 : Int) (disk : Disk α) (i1 i2 : Int)
    (h1 : _calculate_index (E := E) t1 g = Except.ok i1)
    (h2 : _calculate_index (E := E) t2 g = Except.ok i2)
    (hrev : _calculate_block_index i2 c.block_size <
      _calculate_block_index i1 c.block_size) :
    TimeSeriesCache.query c symbol g t1 t2 disk =
      (Except.ok [], disk, []) := by
  unfold TimeSeriesCache.query
  rw [h1]
  dsimp only
  rw [h2]
  dsimp only
  have hz : (_calculate_block_index i2 c.block_size + 1 -
      _calculate_block_index i1 c.block_size).toNat = 0 := by omega
  rw [hz]
  rfl

/-- Witness for C10_reversed_range_empty: a reversed range over two
distinct blocks with block_size 1 at granularity 1s. -/
theorem C10_reversed_range_empty_witness :
    TimeSeriesCache.query ⟨"b", histFetcher, 1, 1⟩ ("S") ("1s")
        (BASE_DATE + 5) (BASE_DATE + 3) (emptyDisk (α := Int)) =
      (Except.ok [], emptyDisk, []) :=
  C10_reversed_range_empty ⟨"b", histFetcher, 1, 1⟩ ("S") ("1s")
    (BASE_DATE + 5) (BASE_DATE + 3) emptyDisk 5 3
    (by rfl) (by rfl) (by decide)

/-- Stripping a list that ends with a newline removes exactly it. -/
theorem granStrip_concat_newline (t : List Char) :
    granStrip (t ++ ['\n']) = t := by
  simp [granStrip, List.getLast?_concat]

/-- Stripping a list that ends with any other character is the identity. -/
theorem granStrip_concat_other (t : List Char) (a : Char) (ha : a ≠ '\n') :
    granStrip (t ++ [a]) = t ++ [a] := by
  simp [granStrip, List.getLast?_concat, ha]

/-- The core regex match on a list ending in a evaluates the guard on the
digit part t. -/
theorem granMatchCore_concat (t : List Char) (a : Char) :
    granMatchCore (t ++ [a]) =
      if granUnit a && !t.isEmpty && t.all Char.isDigit then
        some (digitsVal t, a)
      else none := by
  unfold granMatchCore
  rw [List.getLast?_concat]
  dsimp only
  rw [List.dropLast_concat]

/-- Characterization of a successful regex match: the string decomposes as
a nonempty digit run, one unit character, and at most one trailing
newline, and the returned number is the value of the digit run. -/
theorem granMatch_some_iff (s : String) (n : Nat) (u : Char) :
    granMatch s = some (n, u) ↔
      ∃ ds : List Char, ds ≠ [] ∧ ds.all Char.isDigit = true ∧
        granUnit u = true ∧
        (s.data = ds ++ [u] ∨ s.data = ds ++ [u, '\n']) ∧
        n = digitsVal ds := by
  obtain ⟨l⟩ := s
  dsimp only [granMatch]
  rcases List.eq_nil_or_concat l with rfl | ⟨t, a, rfl⟩
  · constructor
    · intro h
      exact Option.noConfusion h
    · rintro ⟨ds, hne, hdig, hu, hc | hc, hn⟩ <;>
        · have hlen := congrArg List.length hc
          simp at hlen
  · simp only [List.concat_eq_append]
    by_cases ha : a = '\n'
    · subst ha
      rw [granStrip_concat_newline]
      rcases List.eq_nil_or_concat t with rfl | ⟨t2, b, rfl⟩
      · constructor
        · intro h
          exact Option.noConfusion h
        · rintro ⟨ds, hne, hdig, hu, hc | hc, hn⟩
          · rcases ds with _ | ⟨d, ds2⟩
            · exact (hne rfl).elim
            · simp only [List.nil_append, List.cons_append] at hc
              have h2 := (List.cons_eq_cons.mp hc).2
              have hlen := congrArg List.length h2
              simp at hlen
          · have hlen := congrArg List.length hc
            simp at hlen
      · simp only [List.concat_eq_append]
        rw [granMatchCore_concat]
        constructor
        · intro h
          by_cases hcond : (granUnit b && !t2.isEmpty && t2.all Char.isDigit) = true
          · rw [if_pos hcond] at h
            have hp := Option.some.inj h
            have hnval : digitsVal t2 = n := congrArg Prod.fst hp
            have hbu : b = u := congrArg Prod.snd hp
            subst hbu
            simp only [Bool.and_eq_true] at hcond
            obtain ⟨⟨hu1, hne1⟩, hdig1⟩ := hcond
            have hne2 : t2 ≠ [] := List.isEmpty_eq_false.mp (by simpa using hne1)
            refine ⟨t2, hne2, hdig1, hu1, Or.inr ?_, hnval.symm⟩
            simp
          · rw [if_neg hcond] at h
            exact Option.noConfusion h
        · rintro ⟨ds, hne, hdig, hu, hc | hc, hn⟩
          · have hlast := congrArg List.getLast? hc
            rw [List.getLast?_concat, List.getLast?_concat] at hlast
            have hun : u = '\n' := (Option.some.inj hlast).symm
            subst hun
            exact absurd hu (by decide)
          · have hc2 : (t2 ++ [b]) ++ ['\n'] = (ds ++ [u]) ++ ['\n'] := by
              simpa [List.append_assoc] using hc
            have hl2 : t2 ++ [b] = ds ++ [u] :=
              (List.append_inj' hc2 rfl).1
            obtain ⟨ht2ds, hbu⟩ := List.append_inj' hl2 rfl
            have hbu2 : b = u := (List.cons_eq_cons.mp hbu).1
            subst ht2ds
            have hcond : (granUnit b && !t2.isEmpty && t2.all Char.isDigit) = true := by
              simp only [Bool.and_eq_true]
              refine ⟨⟨by rw [hbu2]; exact hu, ?_⟩, hdig⟩
              rw [List.isEmpty_eq_false.mpr hne]
              rfl
            rw [if_pos hcond, hn, hbu2]
    · rw [granStrip_concat_other t a ha, granMatchCore_concat]
      constructor
      · intro h
        by_cases hcond : (granUnit a && !t.isEmpty && t.all Char.isDigit) = true
        · rw [if_pos hcond] at h
          have hp := Option.some.inj h
          have hnval : digitsVal t = n := congrArg Prod.fst hp
          have hau : a = u := congrArg Prod.snd hp
          subst hau
          simp only [Bool.and_eq_true] at hcond
          obtain ⟨⟨hu1, hne1⟩, hdig1⟩ := hcond
          have hne2 : t ≠ [] := List.isEmpty_eq_false.mp (by simpa using hne1)
          exact ⟨t, hne2, hdig1, hu1, Or.inl rfl, hnval.symm⟩
        · rw [if_neg hcond] at h
          exact Option.noConfusion h
      · rintro ⟨ds, hne, hdig, hu, hc | hc, hn⟩
        · obtain ⟨htds, hau⟩ := List.append_inj' hc rfl
          have hau2 : a = u := (List.cons_eq_cons.mp hau).1
          subst htds
          have hcond : (granUnit a && !t.isEmpty && t.all Char.isDigit) = true := by
            simp only [Bool.and_eq_true]
            refine ⟨⟨by rw [hau2]; exact hu, ?_⟩, hdig⟩
            rw [List.isEmpty_eq_false.mpr hne]
            rfl
          rw [if_pos hcond, hn, hau2]
        · have hlast := congrArg List.getLast? hc
          have hc3 : ds ++ [u, '\n'] = (ds ++ [u]) ++ ['\n'] := by
            simp [List.append_assoc]
          rw [hc3] at hlast
          rw [List.getLast?_concat, List.getLast?_concat] at hlast
          exact absurd (Option.some.inj hlast) ha

/-- Claim C5 (amended).  The parser returns int(digits) * unit_seconds
(s = 1, m = 60, h = 3600, d = 86400) exactly for the strings whose
characters form a nonempty digit run followed by one unit character (per
the Python dollar anchor, one trailing newline after the unit is also
tolerated), and raises the ValueError of line 37 for every other string.
The digit run may be 0, so parse of 0s is 0 rather than an error; the
concrete values of the claim all hold: parse of 15m is 900, of 1h is
3600, of 2d is 172800, and 15x and m15 raise. -/
theorem C5_parse_characterization :
    _convert_granularity_to_seconds ("15m") = Except.ok 900 ∧
    _convert_granularity_to_seconds ("1h") = Except.ok 3600 ∧
    _convert_granularity_to_seconds ("2d") = Except.ok 172800 ∧
    _convert_granularity_to_seconds ("15x") =
      Except.error ("%s is not a valid granularity string") ∧
    _convert_granularity_to_seconds ("m15") =
      Except.error ("%s is not a valid granularity string") ∧
    _convert_granularity_to_seconds ("0s") = Except.ok 0 ∧
    (∀ (s : String) (k : Nat),
      _convert_granularity_to_seconds s = Except.ok k ↔
        ∃ ds u, ds ≠ [] ∧ ds.all Char.isDigit = true ∧ granUnit u = true ∧
          (s.data = ds ++ [u] ∨ s.data = ds ++ [u, '\n']) ∧
          k = digitsVal ds * granUnitSeconds u) ∧
    (∀ s : String,
      (∃ k, _convert_granularity_to_seconds s = Except.ok k) ∨
      _convert_granularity_to_seconds s =
        Except.error ("%s is not a valid granularity string")) := by
  refine ⟨rfl, rfl, rfl, rfl, rfl, rfl, ?_, ?_⟩
  · intro s k
    constructor
    · intro h
      unfold _convert_granularity_to_seconds at h
      cases hm : granMatch s with
      | none =>
        rw [hm] at h
        exact Except.noConfusion h
      | some p =>
        rcases p with ⟨n, u⟩
        rw [hm] at h
        dsimp only at h
        have hk : n * granUnitSeconds u = k := Except.ok.inj h
        obtain ⟨ds, hne, hdig, hu, hc, hn⟩ := (granMatch_some_iff s n u).mp hm
        exact ⟨ds, u, hne, hdig, hu, hc, by rw [← hk, hn]⟩
    · rintro ⟨ds, u, hne, hdig, hu, hc, hk⟩
      have hm : granMatch s = some (digitsVal ds, u) :=
        (granMatch_some_iff s (digitsVal ds) u).mpr ⟨ds, hne, hdig, hu, hc, rfl⟩
      unfold _convert_granularity_to_seconds
      rw [hm]
      dsimp only
      rw [hk]
  · intro s
    unfold _convert_granularity_to_seconds
    cases hm : granMatch s with
    | none => exact Or.inr rfl
    | some p =>
      rcases p with ⟨n, u⟩
      exact Or.inl ⟨n * granUnitSeconds u, rfl⟩
